import Mathlib

/-!
A shallow embedding of `cmd/server/main.go` of coppermind-twilio-bridge.

The program is an SMS-to-chatbot bridge.  It keeps a directory
(`numbers : map[string]string`) that is loaded from and saved to a JSON file,
offers three commands (`serve`, `add`, `remove`) and one webhook handler
(`handleMessage`) that forwards an inbound SMS to a chat backend
(`SendMessage`) and sends the backend's reply back through the telephony
provider (`CreateMessage`).

Modelling decisions.

* A Go `string` is a sequence of bytes, not of Unicode scalars, so it is
  embedded as `List Nat` whose elements are byte values (`0 .. 255`).
* A Go `map[string]string` is an association list read with `List.lookup`;
  the nil map is `none`.
* Package-level variables (`numbers`, `conversation`) and the file system are
  passed explicitly as state.
* Effects that leave the process (the HTTP round trip to the chat backend, the
  provider call, the clock, the random identifier, the environment) are
  results supplied by a `World` record; the control flow around them is the
  source's.  Every outbound call and every log line is recorded as an `Event`.
* `encoding/json` is embedded for the one type the directory uses,
  `map[string]string`: `json.Marshal` completely, `json.Unmarshal` on every
  input it accepts (every other input is an error, as in Go).
-/

namespace Bridge

/-! ## Strings -/

/-- A Go string: a sequence of byte values. -/
abbrev GoString := List Nat

/-- The bytes of an ASCII literal. -/
def ascii (s : String) : GoString := s.toList.map Char.toNat

/-! ## `unicode/utf8` and `unicode/utf16` -/

/-- The rune `utf8.RuneError` (U+FFFD). -/
def RuneError : Nat := 0xFFFD

/-- Go `utf8.DecodeRune`: the first rune of `p` and its width in bytes.  An
invalid or truncated encoding yields `(RuneError, 1)`, the empty input
`(RuneError, 0)`.  The masks `p0&mask2`, `p0&mask3`, `p0&mask4`, `b&maskx` are
written `% 32`, `% 16`, `% 8`, `% 64`, the shifts as multiplications and the
bitwise or of disjoint bit fields as a sum. -/
def DecodeRune : GoString → Nat × Nat
  | [] => (RuneError, 0)
  | p0 :: rest =>
    if p0 < 0x80 then (p0, 1)
    else if 0xC2 ≤ p0 ∧ p0 ≤ 0xDF then
      match rest with
      | b1 :: _ =>
        if 0x80 ≤ b1 ∧ b1 ≤ 0xBF then ((p0 % 32) * 64 + b1 % 64, 2) else (RuneError, 1)
      | [] => (RuneError, 1)
    else if 0xE0 ≤ p0 ∧ p0 ≤ 0xEF then
      match rest with
      | b1 :: b2 :: _ =>
        if (if p0 = 0xE0 then 0xA0 else 0x80) ≤ b1 ∧ b1 ≤ (if p0 = 0xED then 0x9F else 0xBF) then
          if 0x80 ≤ b2 ∧ b2 ≤ 0xBF then
            ((p0 % 16) * 4096 + (b1 % 64) * 64 + b2 % 64, 3)
          else (RuneError, 1)
        else (RuneError, 1)
      | _ => (RuneError, 1)
    else if 0xF0 ≤ p0 ∧ p0 ≤ 0xF4 then
      match rest with
      | b1 :: b2 :: b3 :: _ =>
        if (if p0 = 0xF0 then 0x90 else 0x80) ≤ b1 ∧ b1 ≤ (if p0 = 0xF4 then 0x8F else 0xBF) then
          if 0x80 ≤ b2 ∧ b2 ≤ 0xBF then
            if 0x80 ≤ b3 ∧ b3 ≤ 0xBF then
              ((p0 % 8) * 262144 + (b1 % 64) * 4096 + (b2 % 64) * 64 + b3 % 64, 4)
            else (RuneError, 1)
          else (RuneError, 1)
        else (RuneError, 1)
      | _ => (RuneError, 1)
    else (RuneError, 1)

/-- Go `utf8.EncodeRune`: the UTF-8 bytes of rune `r`; a surrogate or a value
above `utf8.MaxRune` is written as `RuneError`. -/
def EncodeRune (r : Nat) : GoString :=
  if r ≤ 0x7F then [r]
  else if r ≤ 0x7FF then [0xC0 + r / 64, 0x80 + r % 64]
  else if 0x10FFFF < r ∨ (0xD800 ≤ r ∧ r ≤ 0xDFFF) then [0xEF, 0xBF, 0xBD]
  else if r ≤ 0xFFFF then [0xE0 + r / 4096, 0x80 + (r / 64) % 64, 0x80 + r % 64]
  else [0xF0 + r / 262144, 0x80 + (r / 4096) % 64, 0x80 + (r / 64) % 64, 0x80 + r % 64]

/-- Go `utf8.ValidString`: `s` is a sequence of well-formed encodings.  The
first argument bounds the number of runes and is at least `s.length`. -/
def validUTF8Aux : Nat → GoString → Bool
  | _, [] => true
  | 0, _ :: _ => false
  | fuel + 1, b :: rest =>
    if (DecodeRune (b :: rest)).2 = 1 ∧ 0x80 ≤ b then false
    else validUTF8Aux fuel ((b :: rest).drop (DecodeRune (b :: rest)).2)

/-- Go `utf8.ValidString`. -/
def validUTF8 (s : GoString) : Bool := validUTF8Aux s.length s

/-- Go `utf16.IsSurrogate`. -/
def IsSurrogate (r : Nat) : Bool := 0xD800 ≤ r ∧ r < 0xE000

/-- Go `utf16.DecodeRune`: the rune of a surrogate pair, `RuneError` when the
two halves do not form one.  The second half is `none` where Go passes `-1`. -/
def utf16DecodeRune (r1 : Nat) (r2 : Option Nat) : Nat :=
  match r2 with
  | some r2 =>
    if 0xD800 ≤ r1 ∧ r1 < 0xDC00 ∧ 0xDC00 ≤ r2 ∧ r2 < 0xE000 then
      (r1 - 0xD800) * 1024 + (r2 - 0xDC00) + 0x10000
    else RuneError
  | none => RuneError

/-! ## `encoding/json`, encoder -/

/-- The table `hex` of `encoding/json`: the lower-case digit of `n < 16`. -/
def hexDigit (n : Nat) : Nat := if n < 10 then 0x30 + n else 0x61 + (n - 10)

/-- The table `htmlSafeSet` of `encoding/json`: the ASCII bytes that
`json.Marshal` copies unchanged. -/
def htmlSafe (b : Nat) : Bool :=
  0x20 ≤ b ∧ b < 0x80 ∧ b ≠ 0x22 ∧ b ≠ 0x26 ∧ b ≠ 0x3C ∧ b ≠ 0x3E ∧ b ≠ 0x5C

/-- The escape that `appendString` writes for an ASCII byte outside
`htmlSafeSet`. -/
def escapeByte (b : Nat) : GoString :=
  if b = 0x5C ∨ b = 0x22 then [0x5C, b]
  else if b = 0x08 then [0x5C, 0x62]
  else if b = 0x0C then [0x5C, 0x66]
  else if b = 0x0A then [0x5C, 0x6E]
  else if b = 0x0D then [0x5C, 0x72]
  else if b = 0x09 then [0x5C, 0x74]
  else [0x5C, 0x75, 0x30, 0x30, hexDigit (b / 16), hexDigit (b % 16)]

/-- The loop of `appendString` (with `escapeHTML` set, as `json.Marshal` does)
over the bytes that remain; the first argument bounds the iterations. -/
def appendStringAux : Nat → GoString → GoString
  | _, [] => []
  | 0, _ :: _ => []
  | fuel + 1, b :: rest =>
    if b < 0x80 then
      if htmlSafe b then b :: appendStringAux fuel rest
      else escapeByte b ++ appendStringAux fuel rest
    else if (DecodeRune (b :: rest)).1 = RuneError ∧ (DecodeRune (b :: rest)).2 = 1 then
      [0x5C, 0x75, 0x66, 0x66, 0x66, 0x64] ++ appendStringAux fuel rest
    else if (DecodeRune (b :: rest)).1 = 0x2028 ∨ (DecodeRune (b :: rest)).1 = 0x2029 then
      [0x5C, 0x75, 0x32, 0x30, 0x32, hexDigit ((DecodeRune (b :: rest)).1 % 16)]
        ++ appendStringAux fuel ((b :: rest).drop (DecodeRune (b :: rest)).2)
    else
      (b :: rest).take (DecodeRune (b :: rest)).2
        ++ appendStringAux fuel ((b :: rest).drop (DecodeRune (b :: rest)).2)

/-- Go `appendString`: the JSON string literal for `src`. -/
def appendString (src : GoString) : GoString :=
  0x22 :: (appendStringAux src.length src ++ [0x22])

/-- A Go `map[string]string` that is not nil: an association list, read with
`List.lookup`. -/
abbrev GoMap := List (GoString × GoString)

/-- Go `strings.Compare a b ≤ 0`: bytewise lexicographic order. -/
def strLE : GoString → GoString → Bool
  | [], _ => true
  | _ :: _, [] => false
  | a :: as, b :: bs => if a < b then true else if b < a then false else strLE as bs

/-- Insertion of one entry into a list of entries sorted by key. -/
def insertByKey (e : GoString × GoString) : GoMap → GoMap
  | [] => [e]
  | x :: xs => if strLE e.1 x.1 then e :: x :: xs else x :: insertByKey e xs

/-- The entries sorted by key, as `mapEncoder.encode` orders them. -/
def sortByKey : GoMap → GoMap
  | [] => []
  | e :: es => insertByKey e (sortByKey es)

/-- One member `"key":"value"` of the encoded object. -/
def encodeMember (e : GoString × GoString) : GoString :=
  appendString e.1 ++ 0x3A :: appendString e.2

/-- The members of the encoded object, separated by commas. -/
def encodeMembers : GoMap → GoString
  | [] => []
  | [e] => encodeMember e
  | e :: es => encodeMember e ++ 0x2C :: encodeMembers es

/-- Go `json.Marshal` on a `map[string]string`: `null` for the nil map,
otherwise the object of its entries in key order.  It cannot fail on this
type. -/
def jsonMarshal : Option GoMap → GoString
  | none => [0x6E, 0x75, 0x6C, 0x6C]
  | some m => 0x7B :: (encodeMembers (sortByKey m) ++ [0x7D])

/-! ## `encoding/json`, decoder -/

/-- The value of a hexadecimal digit, as `getu4` reads it. -/
def hexVal (c : Nat) : Option Nat :=
  if 0x30 ≤ c ∧ c ≤ 0x39 then some (c - 0x30)
  else if 0x61 ≤ c ∧ c ≤ 0x66 then some (c - 0x61 + 10)
  else if 0x41 ≤ c ∧ c ≤ 0x46 then some (c - 0x41 + 10)
  else none

/-- Four hexadecimal digits at the head of `s`: their value and what follows. -/
def hex4 : GoString → Option (Nat × GoString)
  | a :: b :: c :: d :: rest =>
    match hexVal a, hexVal b, hexVal c, hexVal d with
    | some x, some y, some z, some w => some (x * 4096 + y * 256 + z * 16 + w, rest)
    | _, _, _, _ => none
  | _ => none

/-- Go `getu4`: the value of an escape `\uXXXX` at the head of `s`, and what
follows it. -/
def getu4 : GoString → Option (Nat × GoString)
  | a :: b :: rest => if a = 0x5C ∧ b = 0x75 then hex4 rest else none
  | _ => none

/-- The byte that a one-letter escape stands for; `none` for a letter that
the scanner rejects. -/
def simpleEscape (c : Nat) : Option Nat :=
  if c = 0x22 ∨ c = 0x5C ∨ c = 0x2F then some c
  else if c = 0x62 then some 0x08
  else if c = 0x66 then some 0x0C
  else if c = 0x6E then some 0x0A
  else if c = 0x72 then some 0x0D
  else if c = 0x74 then some 0x09
  else none

/-- The scanner's string states together with `unquote`, reading after the
opening quote: the decoded string and the input after the closing quote.
Raw bytes are coerced to well-formed UTF-8, an unpaired surrogate escape
becomes U+FFFD, a control character or an unknown escape is a syntax error
(`none`).  The first argument bounds the iterations. -/
def unquoteAux : Nat → GoString → Option (GoString × GoString)
  | 0, _ => none
  | _ + 1, [] => none
  | fuel + 1, c :: rest =>
    if c = 0x22 then some ([], rest)
    else if c = 0x5C then
      match rest with
      | [] => none
      | e :: rest1 =>
        if e = 0x75 then
          match hex4 rest1 with
          | none => none
          | some (rr, rest2) =>
            if IsSurrogate rr then
              match getu4 rest2 with
              | some (rr1, rest3) =>
                if utf16DecodeRune rr (some rr1) ≠ RuneError then
                  (unquoteAux fuel rest3).map
                    (fun r => (EncodeRune (utf16DecodeRune rr (some rr1)) ++ r.1, r.2))
                else (unquoteAux fuel rest2).map (fun r => (EncodeRune RuneError ++ r.1, r.2))
              | none => (unquoteAux fuel rest2).map (fun r => (EncodeRune RuneError ++ r.1, r.2))
            else (unquoteAux fuel rest2).map (fun r => (EncodeRune rr ++ r.1, r.2))
        else
          match simpleEscape e with
          | none => none
          | some b => (unquoteAux fuel rest1).map (fun r => (b :: r.1, r.2))
    else if c < 0x20 then none
    else if c < 0x80 then (unquoteAux fuel rest).map (fun r => (c :: r.1, r.2))
    else
      (unquoteAux fuel ((c :: rest).drop (DecodeRune (c :: rest)).2)).map
        (fun r => (EncodeRune (DecodeRune (c :: rest)).1 ++ r.1, r.2))

/-- A JSON string literal at the head of `s`: its decoded value and the rest. -/
def parseString : GoString → Option (GoString × GoString)
  | [] => none
  | c :: rest => if c = 0x22 then unquoteAux (rest.length + 1) rest else none

/-- The scanner's `isSpace`. -/
def isSpace (c : Nat) : Bool := c = 0x20 ∨ c = 0x09 ∨ c = 0x0D ∨ c = 0x0A

/-- Skip JSON white space. -/
def skipWS : GoString → GoString
  | [] => []
  | c :: rest => if isSpace c then skipWS rest else c :: rest

/-- A member value that decodes into a Go `string`: a string literal, or
`null`, which leaves the zero value `""`.  Every other JSON value makes
`Unmarshal` return an error. -/
def parseValue (s : GoString) : Option (GoString × GoString) :=
  if s.take 4 = [0x6E, 0x75, 0x6C, 0x6C] then some ([], s.drop 4) else parseString s

/-- The members of an object, reading at the first key: the entries in input
order and the input after the closing brace. -/
def parseMembers : Nat → GoString → Option (GoMap × GoString)
  | 0, _ => none
  | fuel + 1, s =>
    match parseString s with
    | none => none
    | some (k, s1) =>
      match skipWS s1 with
      | [] => none
      | c :: s2 =>
        if c = 0x3A then
          match parseValue (skipWS s2) with
          | none => none
          | some (v, s3) =>
            match skipWS s3 with
            | [] => none
            | d :: s4 =>
              if d = 0x2C then
                (parseMembers fuel (skipWS s4)).map (fun r => ((k, v) :: r.1, r.2))
              else if d = 0x7D then some ([(k, v)], s4)
              else none
        else none

/-- What a JSON document means for a `map[string]string`: `null`, or the
entries of an object in input order. -/
inductive Doc where
  | null : Doc
  | object : GoMap → Doc
  deriving DecidableEq, Repr

/-- The whole input read as `null` or as an object of strings; `none` where
`json.Unmarshal` into a `map[string]string` returns an error (a syntax error,
or a value of another JSON type). -/
def parseDoc (raw : GoString) : Option Doc :=
  match skipWS raw with
  | [] => none
  | c :: rest =>
    if c = 0x7B then
      match skipWS rest with
      | [] => none
      | d :: rest1 =>
        if d = 0x7D then (if skipWS rest1 = [] then some (Doc.object []) else none)
        else
          match parseMembers (rest.length + 1) (d :: rest1) with
          | none => none
          | some (es, rest2) => if skipWS rest2 = [] then some (Doc.object es) else none
    else if (c :: rest).take 4 = [0x6E, 0x75, 0x6C, 0x6C] then
      (if skipWS (rest.drop 3) = [] then some Doc.null else none)
    else none

/-- Go `m[k] = v` on a map that is not nil. -/
def GoMap.set (m : GoMap) (k v : GoString) : GoMap :=
  (k, v) :: m.filter (fun e => e.1 ≠ k)

/-- Go `delete(m, k)` on a map that is not nil. -/
def GoMap.delete (m : GoMap) (k : GoString) : GoMap :=
  m.filter (fun e => e.1 ≠ k)

/-- The mapping that a JSON object denotes: its members stored in input
order into an empty map, a later duplicate of a key replacing the earlier one. -/
def objectMap (es : GoMap) : GoMap :=
  es.foldl (fun m e => GoMap.set m e.1 e.2) []

/-- The store phase of `json.Unmarshal(raw, &numbers)`: `null` sets the map to
nil; an object is stored entry by entry into the existing map, or into a
fresh one when the map is nil. -/
def storeDoc (cur : Option GoMap) : Doc → Option GoMap
  | Doc.null => none
  | Doc.object es => some (es.foldl (fun m e => GoMap.set m e.1 e.2) (cur.getD []))

/-- Go `json.Unmarshal(raw, &numbers)`: the new value of the map, or an
error.  The map after an error is not modelled: every caller ends the process
on it. -/
def jsonUnmarshal (raw : GoString) (cur : Option GoMap) : Except GoString (Option GoMap) :=
  match parseDoc raw with
  | none => Except.error (ascii "json: cannot unmarshal")
  | some d => Except.ok (storeDoc cur d)

/-! ## Data model of `main.go` -/

/-- The struct `Message`, the payload sent to the chat backend.  `CreatedAt`
is the clock reading. -/
structure Message where
  ID : GoString
  Conversation : GoString
  User : GoString
  Agent : GoString
  Content : GoString
  Tone : GoString
  CreatedAt : Nat
  deriving DecidableEq, Repr

/-- The struct `Response`, the reply of the chat backend. -/
structure Response where
  Name : GoString
  Tone : GoString
  Content : GoString
  deriving DecidableEq, Repr

/-- The fields of `api.CreateMessageParams` that `handleMessage` sets. -/
structure CreateMessageParams where
  To : GoString
  From : GoString
  Body : GoString
  deriving DecidableEq, Repr

/-- The inbound request as `handleMessage` sees it: the result of
`r.ParseForm()` and the parsed form `r.PostForm` (a `url.Values`). -/
structure Request where
  ParseForm : Option GoString
  PostForm : List (GoString × List GoString)
  deriving DecidableEq, Repr

/-- Go `url.Values.Get`: the first value under `key`, or `""`. -/
def ValuesGet (v : List (GoString × List GoString)) (key : GoString) : GoString :=
  match v.lookup key with
  | some (x :: _) => x
  | _ => []

/-- Go `numbers[k]` with the comma-ok form; a nil map has no key. -/
def mapGet (numbers : Option GoMap) (k : GoString) : Option GoString :=
  match numbers with
  | none => none
  | some m => m.lookup k

/-- What the process does that can be observed from outside: log lines,
lines printed to standard output, and the outbound calls. -/
inductive Event where
  | logParseError (err : GoString)
  | logUnknownNumber (sender : GoString)
  | logReceived (sender name body : GoString)
  | callSendMessage (msg : Message)
  | print (args : List GoString)
  | httpPost (url payload : GoString)
  | logSendError (err : GoString)
  | callCreateMessage (params : CreateMessageParams)
  | logCreateError (err : GoString)
  | logSid (sid : Option GoString)
  | logSentReply (sender : GoString)
  deriving DecidableEq, Repr

/-- The results of the calls that leave the process, as one request sees
them. -/
structure World where
  /-- Result of `uuid.New().String()`. -/
  uuid : GoString
  /-- Result of `time.Now()`. -/
  now : Nat
  /-- Result of `os.Getenv`. -/
  getenv : GoString → GoString
  /-- Result of `json.Marshal(msg)`: the payload, or an error. -/
  marshalMessage : Message → GoString ⊕ GoString
  /-- Result of `http.NewRequest("POST", url, body)`: `some err` on failure. -/
  newRequest : GoString → GoString → Option GoString
  /-- Result of `client.Do(req)`: status and body of the reply, or an error. -/
  clientDo : GoString → GoString → (GoString × GoString) ⊕ GoString
  /-- Result of `json.NewDecoder(resp.Body).Decode(&response)`. -/
  decodeResponse : GoString → Response ⊕ GoString
  /-- Result of `client.Api.CreateMessage`: the `Sid` of the created message
  (a pointer that may be nil), or an error. -/
  createMessage : CreateMessageParams → Option GoString ⊕ GoString

/-- How a Go function with results `(*T, error)` ends: with a value, with an
error, or by a panic. -/
inductive Ret (α : Type) where
  | val : α → Ret α
  | err : GoString → Ret α
  | panic : GoString → Ret α
  deriving DecidableEq, Repr

/-- How the handler of one request ends. -/
inductive Outcome where
  | returned : Outcome
  | panicked : GoString → Outcome
  deriving DecidableEq, Repr

/-! ## The chat relay client and the webhook handler -/

/-- The constant `url` of `SendMessage`. -/
def relayURL : GoString := ascii "http://localhost:8080/chat/send"

/-- Go `SendMessage`.  The three early failures return `(nil, err)`; a reply
body that does not decode makes the function `panic(err)`.  The fourth print
shows the status; the printed form of `resp.Body` is left out. -/
def SendMessage (w : World) (msg : Message) : Ret Response × List Event :=
  match w.marshalMessage msg with
  | Sum.inr err => (Ret.err err, [])
  | Sum.inl jsonPayload =>
    match w.newRequest relayURL jsonPayload with
    | some err => (Ret.err err, [Event.print [ascii "payload prepped"]])
    | none =>
      match w.clientDo relayURL jsonPayload with
      | Sum.inr err =>
        (Ret.err err,
          [Event.print [ascii "payload prepped"], Event.print [ascii "creating client"],
            Event.httpPost relayURL jsonPayload])
      | Sum.inl (status, body) =>
        match w.decodeResponse body with
        | Sum.inr err =>
          (Ret.panic err,
            [Event.print [ascii "payload prepped"], Event.print [ascii "creating client"],
              Event.httpPost relayURL jsonPayload, Event.print [ascii "response received"],
              Event.print [ascii ">>", status]])
        | Sum.inl response =>
          (Ret.val response,
            [Event.print [ascii "payload prepped"], Event.print [ascii "creating client"],
              Event.httpPost relayURL jsonPayload, Event.print [ascii "response received"],
              Event.print [ascii ">>", status]])

/-- The `Message` that `handleMessage` builds for a sender resolved to `name`. -/
def buildMessage (conversation : GoString) (w : World) (name body : GoString) : Message :=
  { ID := w.uuid, Conversation := conversation, User := name, Agent := ascii "Rose",
    Content := body, Tone := [], CreatedAt := w.now }

/-- Go `handleMessage`, given the package variables `numbers` and
`conversation`.  The package variable `client` is set by `serve` before the
handler is registered. -/
def handleMessage (numbers : Option GoMap) (conversation : GoString) (w : World)
    (r : Request) : Outcome × List Event :=
  match r.ParseForm with
  | some err => (Outcome.returned, [Event.logParseError err])
  | none =>
    match mapGet numbers (ValuesGet r.PostForm (ascii "From")) with
    | none => (Outcome.returned, [Event.logUnknownNumber (ValuesGet r.PostForm (ascii "From"))])
    | some name =>
      match SendMessage w
          (buildMessage conversation w name (ValuesGet r.PostForm (ascii "Body"))) with
      | (Ret.err err, evs) =>
        (Outcome.returned,
          Event.logReceived (ValuesGet r.PostForm (ascii "From")) name
              (ValuesGet r.PostForm (ascii "Body"))
            :: Event.callSendMessage
              (buildMessage conversation w name (ValuesGet r.PostForm (ascii "Body")))
            :: evs ++ [Event.logSendError err])
      | (Ret.panic err, evs) =>
        (Outcome.panicked err,
          Event.logReceived (ValuesGet r.PostForm (ascii "From")) name
              (ValuesGet r.PostForm (ascii "Body"))
            :: Event.callSendMessage
              (buildMessage conversation w name (ValuesGet r.PostForm (ascii "Body")))
            :: evs)
      | (Ret.val response, evs) =>
        match w.createMessage
            { To := ValuesGet r.PostForm (ascii "From"),
              From := w.getenv (ascii "TWILIO_PHONE_NUMBER"),
              Body := response.Content } with
        | Sum.inr err =>
          (Outcome.returned,
            Event.logReceived (ValuesGet r.PostForm (ascii "From")) name
                (ValuesGet r.PostForm (ascii "Body"))
              :: Event.callSendMessage
                (buildMessage conversation w name (ValuesGet r.PostForm (ascii "Body")))
              :: evs ++
              [Event.callCreateMessage
                  { To := ValuesGet r.PostForm (ascii "From"),
                    From := w.getenv (ascii "TWILIO_PHONE_NUMBER"),
                    Body := response.Content },
                Event.logCreateError err])
        | Sum.inl sid =>
          (Outcome.returned,
            Event.logReceived (ValuesGet r.PostForm (ascii "From")) name
                (ValuesGet r.PostForm (ascii "Body"))
              :: Event.callSendMessage
                (buildMessage conversation w name (ValuesGet r.PostForm (ascii "Body")))
              :: evs ++
              [Event.callCreateMessage
                  { To := ValuesGet r.PostForm (ascii "From"),
                    From := w.getenv (ascii "TWILIO_PHONE_NUMBER"),
                    Body := response.Content },
                Event.logSid sid,
                Event.logSentReply (ValuesGet r.PostForm (ascii "From"))])

/-- The calls to `SendMessage` recorded in a trace. -/
def relayCalls : List Event → List Message
  | [] => []
  | Event.callSendMessage m :: evs => m :: relayCalls evs
  | _ :: evs => relayCalls evs

/-- The calls to `CreateMessage` recorded in a trace. -/
def providerSends : List Event → List CreateMessageParams
  | [] => []
  | Event.callCreateMessage p :: evs => p :: providerSends evs
  | _ :: evs => providerSends evs

/-! ## The directory store and the commands -/

/-- The file system: the content of each path that holds a readable file, and
the error that writing a path runs into, if any. -/
structure FS where
  files : GoString → Option GoString
  writeErr : GoString → Option GoString

/-- Go `os.ReadFile`. -/
def ReadFile (fs : FS) (path : GoString) : Except GoString GoString :=
  match fs.files path with
  | some raw => Except.ok raw
  | none => Except.error (ascii "open: no such file or directory")

/-- Go `os.WriteFile`: the file at `path` is replaced, every other path is
untouched. -/
def WriteFile (fs : FS) (path data : GoString) : Except GoString FS :=
  match fs.writeErr path with
  | some err => Except.error err
  | none => Except.ok { fs with files := fun q => if q = path then some data else fs.files q }

/-- The state that the commands work on: the package variable `numbers` and
the file system. -/
structure State where
  numbers : Option GoMap
  fs : FS

/-- Go `loadNumbers`. -/
def loadNumbers (filepath : GoString) (st : State) : Except GoString State :=
  match ReadFile st.fs filepath with
  | Except.error err => Except.error err
  | Except.ok raw =>
    match jsonUnmarshal raw st.numbers with
    | Except.error err => Except.error err
    | Except.ok m => Except.ok { st with numbers := m }

/-- Go `saveNumbers`.  `json.Marshal` has no error on a `map[string]string`. -/
def saveNumbers (filepath : GoString) (st : State) : Except GoString State :=
  match WriteFile st.fs filepath (jsonMarshal st.numbers) with
  | Except.error err => Except.error err
  | Except.ok fs => Except.ok { st with fs := fs }

/-- How a command, or a function that may call `log.Fatal`, ends: it returns
with a new state, it ends the process through `log.Fatal`, or it panics. -/
inductive Run where
  | done : State → Run
  | fatal : GoString → Run
  | panic : GoString → Run

/-- Go `addPerson`.  An assignment to an entry of a nil map panics. -/
def addPerson (name phone : GoString) (st : State) : Run :=
  match st.numbers with
  | none => Run.panic (ascii "assignment to entry in nil map")
  | some m =>
    match saveNumbers (ascii "numbers.json") { st with numbers := some (GoMap.set m name phone) } with
    | Except.error _ => Run.fatal (ascii "Could not save number to file")
    | Except.ok st1 => Run.done st1

/-- Go `removePerson`.  `delete` on a nil map does nothing. -/
def removePerson (name : GoString) (st : State) : Run :=
  match saveNumbers (ascii "numbers.json")
      { st with numbers := st.numbers.map (fun m => GoMap.delete m name) } with
  | Except.error _ => Run.fatal (ascii "Could not save number to file")
  | Except.ok st1 => Run.done st1

/-- The method `Get` of `cli.Args`: the positional argument at index `n`, or
`""`. -/
def ArgsGet (args : List GoString) (n : Nat) : GoString := args.getD n []

/-- The `Action` of the command `add`; `file` is the value of the flag
`--file` and `args` are the positional arguments. -/
def addAction (file : GoString) (args : List GoString) (st : State) : Run :=
  if ArgsGet args 0 = [] ∨ ArgsGet args 1 = [] then
    Run.fatal (ascii "Name and phone number must be provided in that order")
  else if file = [] then Run.fatal (ascii "Numbers file must be provided")
  else
    match loadNumbers file st with
    | Except.error _ => Run.fatal (ascii "Could not load numbers file")
    | Except.ok st1 => addPerson (ArgsGet args 0) (ArgsGet args 1) st1

/-- The `Action` of the command `remove`. -/
def removeAction (file : GoString) (args : List GoString) (st : State) : Run :=
  if ArgsGet args 0 = [] then Run.fatal (ascii "Name must be provided in that order")
  else if file = [] then Run.fatal (ascii "Numbers file must be provided")
  else
    match loadNumbers file st with
    | Except.error _ => Run.fatal (ascii "Could not load numbers file")
    | Except.ok st1 => removePerson (ArgsGet args 0) st1

/-- How the command `serve` ends: through `log.Fatal`, or in
`http.ListenAndServe(addr, router)` with the directory it loaded. -/
inductive Served where
  | fatal : GoString → Served
  | listenAndServe : GoString → Option GoMap → Served
  deriving DecidableEq, Repr

/-- Go `serve`; `getenv` is the process environment. -/
def serve (getenv : GoString → GoString) (numbers : Option GoMap) (port : GoString) : Served :=
  if getenv (ascii "TWILIO_ACCOUNT_SID") = [] ∨ getenv (ascii "TWILIO_AUTH_TOKEN") = [] then
    Served.fatal (ascii "TWILIO_ACCOUNT_SID and TWILIO_AUTH_TOKEN must be set")
  else Served.listenAndServe (0x3A :: port) numbers

/-- The `Action` of the command `serve`. -/
def serveAction (getenv : GoString → GoString) (file : GoString) (args : List GoString)
    (st : State) : Served :=
  if file = [] then Served.fatal (ascii "Numbers file must be provided")
  else
    match loadNumbers file st with
    | Except.error _ => Served.fatal (ascii "Could not load numbers file")
    | Except.ok st1 =>
      serve getenv st1.numbers (if ArgsGet args 1 = [] then ascii "6000" else ArgsGet args 1)

/-! ## Concrete scenarios -/

/-- The directory with the single entry `+15551230001 -> Alice`. -/
def dirAlice : Option GoMap := some [(ascii "+15551230001", ascii "Alice")]

/-- The webhook `From=+15551230001&Body=Hello`. -/
def reqHello : Request :=
  { ParseForm := none,
    PostForm := [(ascii "From", [ascii "+15551230001"]), (ascii "Body", [ascii "Hello"])] }

/-- A webhook from the number `+19998887777`. -/
def reqUnknown : Request :=
  { ParseForm := none,
    PostForm := [(ascii "From", [ascii "+19998887777"]), (ascii "Body", [ascii "Hi"])] }

/-- The webhook `POST /sms?x=%zz` with body `From=%2B19998887777&Body=Hi`:
the body is parsed into `PostForm`, the query string is malformed, so
`ParseForm` returns an error. -/
def reqBadQuery : Request :=
  { ParseForm := some (ascii "invalid URL escape \"%zz\""),
    PostForm := [(ascii "From", [ascii "+19998887777"]), (ascii "Body", [ascii "Hi"])] }

/-- A world in which the chat backend answers with content `Hi Alice` and the
provider accepts the send. -/
def worldHi : World :=
  { uuid := ascii "6f1c", now := 1700000000,
    getenv := fun k => if k = ascii "TWILIO_PHONE_NUMBER" then ascii "+15550000000" else [],
    marshalMessage := fun msg => Sum.inl msg.Content,
    newRequest := fun _ _ => none,
    clientDo := fun _ _ => Sum.inl (ascii "200 OK", ascii "\x7b\"content\":\"Hi Alice\"\x7d"),
    decodeResponse := fun _ => Sum.inl { Name := [], Tone := [], Content := ascii "Hi Alice" },
    createMessage := fun _ => Sum.inl (some (ascii "SM01")) }

/-- A world in which the chat backend answers with a body that is not JSON. -/
def worldBadReply : World :=
  { worldHi with
    clientDo := fun _ _ => Sum.inl (ascii "502 Bad Gateway", ascii "<html>"),
    decodeResponse := fun _ => Sum.inr (ascii "invalid character '<' looking for beginning of value") }

/-- A file system that holds only `people.json`, with content `{}`, and in
which every write succeeds. -/
def fsPeople : FS :=
  { files := fun p => if p = ascii "people.json" then some [0x7B, 0x7D] else none,
    writeErr := fun _ => none }

/-- A file system without files in which every write succeeds. -/
def fsEmpty : FS := { files := fun _ => none, writeErr := fun _ => none }

/-- A directory with two entries; the second name holds a two-byte rune. -/
def dirTwo : GoMap :=
  [(ascii "+15551230002", [0x5A, 0x6F, 0xC3, 0xAB]), (ascii "+15551230001", ascii "Alice")]

/-- The directory with the single entry `+19998887777 -> Bob`. -/
def dirBob : Option GoMap := some [(ascii "+19998887777", ascii "Bob")]

/-- A file system that holds only `people.json`, with the object
`+15551230001 -> Alice`. -/
def fsAliceFile : FS :=
  { files := fun p =>
      if p = ascii "people.json" then some (ascii "\x7b\"+15551230001\":\"Alice\"\x7d")
      else none,
    writeErr := fun _ => none }

/-- The process environment with the provider credentials set. -/
def envSet : GoString → GoString := fun _ => ascii "x"

/-! ## Theorems: the webhook handler -/

theorem relayCalls_append (a b : List Event) :
    relayCalls (a ++ b) = relayCalls a ++ relayCalls b := by
  induction a with
  | nil => rfl
  | cons e a ih => cases e <;> simp [relayCalls, ih]

theorem providerSends_append (a b : List Event) :
    providerSends (a ++ b) = providerSends a ++ providerSends b := by
  induction a with
  | nil => rfl
  | cons e a ih => cases e <;> simp [providerSends, ih]

/-- The events of `SendMessage` hold no call of `SendMessage` and no call of
`CreateMessage`. -/
theorem SendMessage_events (w : World) (msg : Message) :
    relayCalls (SendMessage w msg).2 = [] ∧ providerSends (SendMessage w msg).2 = [] := by
  unfold SendMessage
  repeat' split
  all_goals exact ⟨rfl, rfl⟩

/-- C1: a webhook whose form parses and whose `From` is a key of the
directory makes exactly one call to `SendMessage`; when that call returns a
reply, it makes exactly one call to `CreateMessage`, to the webhook's `From`
with the reply's content as body. -/
theorem handleMessage_known_sender (numbers : Option GoMap) (conversation : GoString)
    (w : World) (r : Request) (name : GoString)
    (hparse : r.ParseForm = none)
    (hkey : mapGet numbers (ValuesGet r.PostForm (ascii "From")) = some name) :
    (relayCalls (handleMessage numbers conversation w r).2).length = 1 ∧
    ∀ response evs,
      SendMessage w (buildMessage conversation w name (ValuesGet r.PostForm (ascii "Body")))
        = (Ret.val response, evs) →
      providerSends (handleMessage numbers conversation w r).2
        = [{ To := ValuesGet r.PostForm (ascii "From"),
             From := w.getenv (ascii "TWILIO_PHONE_NUMBER"),
             Body := response.Content }] := by
  have hev := SendMessage_events w
    (buildMessage conversation w name (ValuesGet r.PostForm (ascii "Body")))
  unfold handleMessage
  rw [hparse]
  simp only [hkey]
  rcases hsm : SendMessage w
      (buildMessage conversation w name (ValuesGet r.PostForm (ascii "Body"))) with ⟨ret, evs⟩
  rw [hsm] at hev
  obtain ⟨hr, hp⟩ := hev
  simp only at hr hp
  cases ret with
  | err e =>
    refine ⟨by simp [relayCalls, relayCalls_append, hr], ?_⟩
    intro response evs1 h
    simp at h
  | panic e =>
    refine ⟨by simp [relayCalls, hr], ?_⟩
    intro response evs1 h
    simp at h
  | val resp =>
    simp only
    cases w.createMessage
        { To := ValuesGet r.PostForm (ascii "From"),
          From := w.getenv (ascii "TWILIO_PHONE_NUMBER"),
          Body := resp.Content } with
    | inr e =>
      refine ⟨by simp [relayCalls, relayCalls_append, hr], ?_⟩
      intro response evs1 h
      simp only [Prod.mk.injEq, Ret.val.injEq] at h
      obtain ⟨h1, _⟩ := h
      subst h1
      simp [providerSends, providerSends_append, hp]
    | inl sid =>
      refine ⟨by simp [relayCalls, relayCalls_append, hr], ?_⟩
      intro response evs1 h
      simp only [Prod.mk.injEq, Ret.val.injEq] at h
      obtain ⟨h1, _⟩ := h
      subst h1
      simp [providerSends, providerSends_append, hp]

/-- C1, the scenario of the specification: directory
`+15551230001 -> Alice`, webhook `From=+15551230001&Body=Hello`, reply content
`Hi Alice`: one relay call and one provider send, with body `Hi Alice`, to
`+15551230001`. -/
theorem handleMessage_known_sender_witness :
    (relayCalls (handleMessage dirAlice (ascii "c0") worldHi reqHello).2).length = 1 ∧
    providerSends (handleMessage dirAlice (ascii "c0") worldHi reqHello).2
      = [{ To := ascii "+15551230001", From := ascii "+15550000000",
           Body := ascii "Hi Alice" }] :=
  ⟨(handleMessage_known_sender dirAlice (ascii "c0") worldHi reqHello (ascii "Alice")
      rfl (by decide)).1,
   (handleMessage_known_sender dirAlice (ascii "c0") worldHi reqHello (ascii "Alice")
      rfl (by decide)).2 _ _ rfl⟩

/-- C2, amended: a webhook whose `From` is not a key of the directory makes
no call to `SendMessage` and no call to `CreateMessage`, and the handler
returns; when the form parsed its only trace is the log line with the unknown
number, and when `ParseForm` failed its only trace is the log line with the
parse error. -/
theorem handleMessage_unknown_sender (numbers : Option GoMap) (conversation : GoString)
    (w : World) (r : Request)
    (hkey : mapGet numbers (ValuesGet r.PostForm (ascii "From")) = none) :
    (handleMessage numbers conversation w r).1 = Outcome.returned ∧
    relayCalls (handleMessage numbers conversation w r).2 = [] ∧
    providerSends (handleMessage numbers conversation w r).2 = [] ∧
    (r.ParseForm = none →
      (handleMessage numbers conversation w r).2
        = [Event.logUnknownNumber (ValuesGet r.PostForm (ascii "From"))]) ∧
    (∀ err, r.ParseForm = some err →
      (handleMessage numbers conversation w r).2 = [Event.logParseError err]) := by
  unfold handleMessage
  cases hp : r.ParseForm with
  | some err => simp [relayCalls, providerSends]
  | none => simp [hkey, relayCalls, providerSends]

/-- C2, amended, at the scenario of the specification: a webhook from
`+19998887777`, which the directory `+15551230001 -> Alice` does not hold. -/
theorem handleMessage_unknown_sender_witness :
    (handleMessage dirAlice (ascii "c0") worldHi reqUnknown).1 = Outcome.returned ∧
    relayCalls (handleMessage dirAlice (ascii "c0") worldHi reqUnknown).2 = [] ∧
    providerSends (handleMessage dirAlice (ascii "c0") worldHi reqUnknown).2 = [] ∧
    (reqUnknown.ParseForm = none →
      (handleMessage dirAlice (ascii "c0") worldHi reqUnknown).2
        = [Event.logUnknownNumber (ValuesGet reqUnknown.PostForm (ascii "From"))]) ∧
    (∀ err, reqUnknown.ParseForm = some err →
      (handleMessage dirAlice (ascii "c0") worldHi reqUnknown).2 = [Event.logParseError err]) :=
  handleMessage_unknown_sender dirAlice (ascii "c0") worldHi reqUnknown (by decide)

/-- C2 as stated fails at the webhook `POST /sms?x=%zz` with body
`From=%2B19998887777&Body=Hi` and the directory `+15551230001 -> Alice`: the
`From` field is not a key of the directory, yet the handler returns on the
`ParseForm` error and its trace holds the parse error only, not the log line
with the unknown number. -/
theorem handleMessage_parse_error_no_unknown_log :
    mapGet dirAlice (ValuesGet reqBadQuery.PostForm (ascii "From")) = none ∧
    handleMessage dirAlice (ascii "c0") worldHi reqBadQuery
      = (Outcome.returned, [Event.logParseError (ascii "invalid URL escape \"%zz\"")]) ∧
    Event.logUnknownNumber (ascii "+19998887777")
      ∉ (handleMessage dirAlice (ascii "c0") worldHi reqBadQuery).2 := by
  decide

/-- C3, at a reply body that does not decode: `SendMessage` panics, so the
handler neither logs the failure nor returns; no provider send is made.  The
directory is `+15551230001 -> Alice`, the webhook `From=+15551230001&Body=Hello`. -/
theorem handleMessage_undecodable_reply_panics :
    handleMessage dirAlice (ascii "c0") worldBadReply reqHello
      = (Outcome.panicked (ascii "invalid character '<' looking for beginning of value"),
         [Event.logReceived (ascii "+15551230001") (ascii "Alice") (ascii "Hello"),
          Event.callSendMessage
            (buildMessage (ascii "c0") worldBadReply (ascii "Alice") (ascii "Hello")),
          Event.print [ascii "payload prepped"], Event.print [ascii "creating client"],
          Event.httpPost relayURL (ascii "Hello"), Event.print [ascii "response received"],
          Event.print [ascii ">>", ascii "502 Bad Gateway"]]) := by
  decide

/-- C10: for a webhook from a number of the directory, the one `Message`
passed to `SendMessage` has `User` the directory value of the sender, `Agent`
the string `Rose`, `Content` the webhook's `Body`, `Tone` empty and
`Conversation` the package variable `conversation`, whatever the request. -/
theorem handleMessage_relay_message (numbers : Option GoMap) (conversation : GoString)
    (w : World) (r : Request) (name : GoString)
    (hparse : r.ParseForm = none)
    (hkey : mapGet numbers (ValuesGet r.PostForm (ascii "From")) = some name) :
    ∃ msg, relayCalls (handleMessage numbers conversation w r).2 = [msg] ∧
      msg.User = name ∧ msg.Agent = ascii "Rose" ∧
      msg.Content = ValuesGet r.PostForm (ascii "Body") ∧ msg.Tone = [] ∧
      msg.Conversation = conversation := by
  refine ⟨buildMessage conversation w name (ValuesGet r.PostForm (ascii "Body")),
    ?_, rfl, rfl, rfl, rfl, rfl⟩
  have hev := (SendMessage_events w
    (buildMessage conversation w name (ValuesGet r.PostForm (ascii "Body")))).1
  unfold handleMessage
  rw [hparse]
  simp only [hkey]
  rcases hsm : SendMessage w
      (buildMessage conversation w name (ValuesGet r.PostForm (ascii "Body"))) with ⟨ret, evs⟩
  rw [hsm] at hev
  simp only at hev
  cases ret with
  | err e => simp [relayCalls, relayCalls_append, hev]
  | panic e => simp [relayCalls, hev]
  | val resp =>
    simp only
    cases w.createMessage
        { To := ValuesGet r.PostForm (ascii "From"),
          From := w.getenv (ascii "TWILIO_PHONE_NUMBER"),
          Body := resp.Content } with
    | inr e => simp [relayCalls, relayCalls_append, hev]
    | inl sid => simp [relayCalls, relayCalls_append, hev]

/-- C10 at the webhook `From=+15551230001&Body=Hello` and the directory
`+15551230001 -> Alice`. -/
theorem handleMessage_relay_message_witness :
    ∃ msg, relayCalls (handleMessage dirAlice (ascii "c0") worldHi reqHello).2 = [msg] ∧
      msg.User = ascii "Alice" ∧ msg.Agent = ascii "Rose" ∧
      msg.Content = ValuesGet reqHello.PostForm (ascii "Body") ∧ msg.Tone = [] ∧
      msg.Conversation = ascii "c0" :=
  handleMessage_relay_message dirAlice (ascii "c0") worldHi reqHello (ascii "Alice")
    rfl (by decide)

/-! ## Theorems: the commands -/

/-- C4, at the empty directory with `name = Alice`, `phone = +15551230001`:
`addPerson` stores the name as key and the phone number as value, so the
directory has no entry under the phone number and a webhook from it is
dropped as an unknown number. -/
theorem addPerson_stores_name_as_key :
    ∃ st, addPerson (ascii "Alice") (ascii "+15551230001")
        { numbers := some [], fs := fsEmpty } = Run.done st ∧
      mapGet st.numbers (ascii "+15551230001") = none ∧
      mapGet st.numbers (ascii "Alice") = some (ascii "+15551230001") ∧
      handleMessage st.numbers (ascii "c0") worldHi reqHello
        = (Outcome.returned, [Event.logUnknownNumber (ascii "+15551230001")]) :=
  ⟨_, rfl, by decide, by decide, by decide⟩

/-- C5, at the directory `+15551230001 -> Alice` with `name = Alice`:
`removePerson` deletes the key `Alice`, which the directory does not hold, so
the entry whose value is `Alice` stays; and at the directory `Alice -> Bob`
it removes an entry whose value is not `Alice`. -/
theorem removePerson_deletes_by_key :
    (∃ st, removePerson (ascii "Alice") { numbers := dirAlice, fs := fsEmpty } = Run.done st ∧
      mapGet st.numbers (ascii "+15551230001") = some (ascii "Alice")) ∧
    (∃ st, removePerson (ascii "Alice")
        { numbers := some [(ascii "Alice", ascii "Bob")], fs := fsEmpty } = Run.done st ∧
      mapGet st.numbers (ascii "Alice") = none) :=
  ⟨⟨_, rfl, by decide⟩, ⟨_, rfl, by decide⟩⟩

/-- C6, at `add --file people.json Alice +15551230001` where `people.json`
holds `{}`: the command leaves `people.json` as it was and writes the new
directory to `numbers.json`; loading `people.json` afterwards gives the empty
directory. -/
theorem addAction_writes_numbers_json :
    ∃ st, addAction (ascii "people.json") [ascii "Alice", ascii "+15551230001"]
        { numbers := none, fs := fsPeople } = Run.done st ∧
      st.fs.files (ascii "people.json") = some [0x7B, 0x7D] ∧
      st.fs.files (ascii "numbers.json")
        = some (ascii "\x7b\"Alice\":\"+15551230001\"\x7d") ∧
      ∃ st1, loadNumbers (ascii "people.json") { numbers := none, fs := st.fs } = Except.ok st1 ∧
        st1.numbers = some [] :=
  ⟨_, rfl, by decide, by decide, _, rfl, rfl⟩

/-- C9, at `serve --file people.json 8080` with the credentials set: the
action reads the port from the positional argument at index 1, which is
absent, and listens on port `6000`. -/
theorem serveAction_ignores_first_argument :
    serveAction envSet (ascii "people.json") [ascii "8080"] { numbers := none, fs := fsPeople }
      = Served.listenAndServe (ascii ":6000") (some []) := by
  decide

/-! ## Theorems: UTF-8 and the JSON string codec -/

theorem DecodeRune_ascii (b : Nat) (rest : GoString) (h : b < 0x80) :
    DecodeRune (b :: rest) = (b, 1) := by
  simp [DecodeRune, h]

theorem EncodeRune_two (b0 b1 : Nat) (h0 : 0xC2 ≤ b0 ∧ b0 ≤ 0xDF) (h1 : 0x80 ≤ b1 ∧ b1 ≤ 0xBF) :
    EncodeRune ((b0 % 32) * 64 + b1 % 64) = [b0, b1] := by
  unfold EncodeRune
  rw [if_neg (by omega), if_pos (by omega)]
  congr 1
  · omega
  · congr 1
    omega

theorem EncodeRune_three (b0 b1 b2 : Nat) (h0 : 0xE0 ≤ b0 ∧ b0 ≤ 0xEF)
    (h1 : (if b0 = 0xE0 then 0xA0 else 0x80) ≤ b1 ∧ b1 ≤ (if b0 = 0xED then 0x9F else 0xBF))
    (h2 : 0x80 ≤ b2 ∧ b2 ≤ 0xBF) :
    EncodeRune ((b0 % 16) * 4096 + (b1 % 64) * 64 + b2 % 64) = [b0, b1, b2] := by
  have h1a : 0x80 ≤ b1 ∧ b1 ≤ 0xBF := by split_ifs at h1 <;> omega
  have hE0 : b0 = 0xE0 → 0xA0 ≤ b1 := by intro h; rw [if_pos h] at h1; exact h1.1
  have hED : b0 = 0xED → b1 ≤ 0x9F := by intro h; rw [if_pos h] at h1; exact h1.2
  unfold EncodeRune
  rw [if_neg (by omega), if_neg (by omega), if_neg (by omega), if_pos (by omega)]
  congr 1
  · omega
  · congr 1
    · omega
    · congr 1
      omega

theorem EncodeRune_four (b0 b1 b2 b3 : Nat) (h0 : 0xF0 ≤ b0 ∧ b0 ≤ 0xF4)
    (h1 : (if b0 = 0xF0 then 0x90 else 0x80) ≤ b1 ∧ b1 ≤ (if b0 = 0xF4 then 0x8F else 0xBF))
    (h2 : 0x80 ≤ b2 ∧ b2 ≤ 0xBF) (h3 : 0x80 ≤ b3 ∧ b3 ≤ 0xBF) :
    EncodeRune ((b0 % 8) * 262144 + (b1 % 64) * 4096 + (b2 % 64) * 64 + b3 % 64)
      = [b0, b1, b2, b3] := by
  have h1a : 0x80 ≤ b1 ∧ b1 ≤ 0xBF := by split_ifs at h1 <;> omega
  have hF0 : b0 = 0xF0 → 0x90 ≤ b1 := by intro h; rw [if_pos h] at h1; exact h1.1
  have hF4 : b0 = 0xF4 → b1 ≤ 0x8F := by intro h; rw [if_pos h] at h1; exact h1.2
  unfold EncodeRune
  rw [if_neg (by omega), if_neg (by omega), if_neg (by omega), if_neg (by omega)]
  congr 1
  · omega
  · congr 1
    · omega
    · congr 1
      · omega
      · congr 1
        omega

/-- A well-formed encoding of two to four bytes: `DecodeRune` reads only
those bytes, and `EncodeRune` of the rune gives them back. -/
theorem DecodeRune_multibyte (b : Nat) (rest : GoString) (hb : 0x80 ≤ b)
    (hs : (DecodeRune (b :: rest)).2 ≠ 1) :
    ∃ tl suf, rest = tl ++ suf ∧
      (DecodeRune (b :: rest)).2 = tl.length + 1 ∧
      EncodeRune (DecodeRune (b :: rest)).1 = b :: tl ∧
      (∀ t, DecodeRune (b :: (tl ++ t)) = DecodeRune (b :: rest)) := by
  have hlt : ¬ b < 0x80 := by omega
  by_cases h2 : 0xC2 ≤ b ∧ b ≤ 0xDF
  · cases rest with
    | nil => simp [DecodeRune, hlt, h2] at hs
    | cons b1 t =>
      by_cases hb1 : 0x80 ≤ b1 ∧ b1 ≤ 0xBF
      · have hd : ∀ t', DecodeRune (b :: b1 :: t') = ((b % 32) * 64 + b1 % 64, 2) := by
          intro t'; simp [DecodeRune, hlt, h2, hb1]
        refine ⟨[b1], t, rfl, ?_, ?_, ?_⟩
        · rw [hd]; rfl
        · rw [hd]; exact EncodeRune_two b b1 h2 hb1
        · intro t'; simp only [List.cons_append, List.nil_append]; rw [hd, hd]
      · simp [DecodeRune, hlt, h2, hb1] at hs
  · by_cases h3 : 0xE0 ≤ b ∧ b ≤ 0xEF
    · match rest, hs with
      | [], hs => simp [DecodeRune, hlt, h2, h3] at hs
      | [_], hs => simp [DecodeRune, hlt, h2, h3] at hs
      | b1 :: b2 :: t, hs =>
        by_cases hb1 : (if b = 0xE0 then 0xA0 else 0x80) ≤ b1 ∧ b1 ≤ (if b = 0xED then 0x9F else 0xBF)
        · by_cases hb2 : 0x80 ≤ b2 ∧ b2 ≤ 0xBF
          · have hd : ∀ t', DecodeRune (b :: b1 :: b2 :: t')
                = ((b % 16) * 4096 + (b1 % 64) * 64 + b2 % 64, 3) := by
              intro t'; simp [DecodeRune, hlt, h2, h3, hb1, hb2]
            refine ⟨[b1, b2], t, rfl, ?_, ?_, ?_⟩
            · rw [hd]; rfl
            · rw [hd]; exact EncodeRune_three b b1 b2 h3 hb1 hb2
            · intro t'; simp only [List.cons_append, List.nil_append]; rw [hd, hd]
          · simp [DecodeRune, hlt, h2, h3, hb1, hb2] at hs
        · simp [DecodeRune, hlt, h2, h3, hb1] at hs
    · by_cases h4 : 0xF0 ≤ b ∧ b ≤ 0xF4
      · match rest, hs with
        | [], hs => simp [DecodeRune, hlt, h2, h3, h4] at hs
        | [_], hs => simp [DecodeRune, hlt, h2, h3, h4] at hs
        | [_, _], hs => simp [DecodeRune, hlt, h2, h3, h4] at hs
        | b1 :: b2 :: b3 :: t, hs =>
          by_cases hb1 : (if b = 0xF0 then 0x90 else 0x80) ≤ b1 ∧ b1 ≤ (if b = 0xF4 then 0x8F else 0xBF)
          · by_cases hb2 : 0x80 ≤ b2 ∧ b2 ≤ 0xBF
            · by_cases hb3 : 0x80 ≤ b3 ∧ b3 ≤ 0xBF
              · have hd : ∀ t', DecodeRune (b :: b1 :: b2 :: b3 :: t')
                    = ((b % 8) * 262144 + (b1 % 64) * 4096 + (b2 % 64) * 64 + b3 % 64, 4) := by
                  intro t'; simp [DecodeRune, hlt, h2, h3, h4, hb1, hb2, hb3]
                refine ⟨[b1, b2, b3], t, rfl, ?_, ?_, ?_⟩
                · rw [hd]; rfl
                · rw [hd]; exact EncodeRune_four b b1 b2 b3 h4 hb1 hb2 hb3
                · intro t'; simp only [List.cons_append, List.nil_append]; rw [hd, hd]
              · simp [DecodeRune, hlt, h2, h3, h4, hb1, hb2, hb3] at hs
            · simp [DecodeRune, hlt, h2, h3, h4, hb1, hb2] at hs
          · simp [DecodeRune, hlt, h2, h3, h4, hb1] at hs
      · simp [DecodeRune, hlt, h2, h3, h4] at hs

theorem hexVal_hexDigit (n : Nat) (h : n < 16) : hexVal (hexDigit n) = some n := by
  interval_cases n <;> rfl

theorem unquoteAux_quote (k : Nat) (rest : GoString) :
    unquoteAux (k + 1) (0x22 :: rest) = some ([], rest) := by
  simp [unquoteAux]

theorem unquoteAux_plain (k c : Nat) (rest : GoString) (h1 : 0x20 ≤ c) (h2 : c < 0x80)
    (h3 : c ≠ 0x22) (h4 : c ≠ 0x5C) :
    unquoteAux (k + 1) (c :: rest)
      = (unquoteAux k rest).map (fun r => (c :: r.1, r.2)) := by
  have h5 : ¬ c < 0x20 := by omega
  simp [unquoteAux, h2, h3, h4, h5]

theorem unquoteAux_raw (k c : Nat) (rest : GoString) (h : 0x80 ≤ c) :
    unquoteAux (k + 1) (c :: rest)
      = (unquoteAux k ((c :: rest).drop (DecodeRune (c :: rest)).2)).map
          (fun r => (EncodeRune (DecodeRune (c :: rest)).1 ++ r.1, r.2)) := by
  have h1 : ¬ c < 0x20 := by omega
  have h2 : ¬ c < 0x80 := by omega
  have h3 : c ≠ 0x22 := by omega
  have h4 : c ≠ 0x5C := by omega
  simp [unquoteAux, h1, h2, h3, h4]

theorem unquoteAux_hex (k r a b c d : Nat) (rest : GoString)
    (hr : hex4 (a :: b :: c :: d :: rest) = some (r, rest)) (hs : IsSurrogate r = false) :
    unquoteAux (k + 1) (0x5C :: 0x75 :: a :: b :: c :: d :: rest)
      = (unquoteAux k rest).map (fun x => (EncodeRune r ++ x.1, x.2)) := by
  simp [unquoteAux, hr, hs]

/-- The decoder reads the escape of an ASCII byte back as that byte. -/
theorem unquoteAux_escapeByte (k b : Nat) (rest : GoString) (h1 : b < 0x80) :
    unquoteAux (k + 1) (escapeByte b ++ rest)
      = (unquoteAux k rest).map (fun r => (b :: r.1, r.2)) := by
  unfold escapeByte
  by_cases c1 : b = 0x5C ∨ b = 0x22
  · rw [if_pos c1]
    rcases c1 with c1 | c1 <;> subst c1 <;> simp [unquoteAux, simpleEscape]
  rw [if_neg c1]
  by_cases c2 : b = 0x08
  · subst c2; simp [unquoteAux, simpleEscape]
  rw [if_neg c2]
  by_cases c3 : b = 0x0C
  · subst c3; simp [unquoteAux, simpleEscape]
  rw [if_neg c3]
  by_cases c4 : b = 0x0A
  · subst c4; simp [unquoteAux, simpleEscape]
  rw [if_neg c4]
  by_cases c5 : b = 0x0D
  · subst c5; simp [unquoteAux, simpleEscape]
  rw [if_neg c5]
  by_cases c6 : b = 0x09
  · subst c6; simp [unquoteAux, simpleEscape]
  rw [if_neg c6]
  have hx : hex4 (0x30 :: 0x30 :: hexDigit (b / 16) :: hexDigit (b % 16) :: rest)
      = some (b, rest) := by
    have e0 : hexVal 0x30 = some 0 := rfl
    simp only [hex4, e0, hexVal_hexDigit (b / 16) (by omega), hexVal_hexDigit (b % 16) (by omega)]
    congr 2
    omega
  have hs : IsSurrogate b = false := by simp [IsSurrogate]; omega
  have he : EncodeRune b = [b] := by simp [EncodeRune]; omega
  have := unquoteAux_hex k b 0x30 0x30 (hexDigit (b / 16)) (hexDigit (b % 16)) rest hx hs
  simpa [he] using this

/-- The decoder reads the encoding of a valid UTF-8 string, followed by the
closing quote, back as that string. -/
theorem unquoteAux_appendStringAux (n : Nat) :
    ∀ (s rest : GoString) (k : Nat), validUTF8Aux n s = true →
      (appendStringAux n s).length < k →
      unquoteAux k (appendStringAux n s ++ 0x22 :: rest) = some (s, rest) := by
  induction n with
  | zero =>
    intro s rest k hv hk
    cases s with
    | nil =>
      obtain ⟨k, rfl⟩ : ∃ j, k = j + 1 := ⟨k - 1, by omega⟩
      simp [appendStringAux, unquoteAux_quote]
    | cons b s => simp [validUTF8Aux] at hv
  | succ n ih =>
    intro s rest k hv hk
    cases s with
    | nil =>
      obtain ⟨k, rfl⟩ : ∃ j, k = j + 1 := ⟨k - 1, by omega⟩
      simp [appendStringAux, unquoteAux_quote]
    | cons b s =>
      obtain ⟨k, rfl⟩ : ∃ j, k = j + 1 := ⟨k - 1, by omega⟩
      by_cases hb : b < 0x80
      · have hd := DecodeRune_ascii b s hb
        have hv1 : validUTF8Aux n s = true := by
          have hnb : ¬ 0x80 ≤ b := by omega
          simpa [validUTF8Aux, hd, hnb] using hv
        by_cases hsafe : htmlSafe b = true
        · have henc : appendStringAux (n + 1) (b :: s) = b :: appendStringAux n s := by
            simp [appendStringAux, hb, hsafe]
          rw [henc] at hk ⊢
          simp only [htmlSafe, decide_eq_true_eq] at hsafe
          rw [List.cons_append, unquoteAux_plain k b _ hsafe.1 hb hsafe.2.2.1 hsafe.2.2.2.2.2.2,
            ih s rest k hv1 (by simpa using hk)]
          rfl
        · have henc : appendStringAux (n + 1) (b :: s) = escapeByte b ++ appendStringAux n s := by
            simp [appendStringAux, hb, hsafe]
          rw [henc] at hk ⊢
          have hlen : (appendStringAux n s).length < k := by
            have : 1 ≤ (escapeByte b).length := by
              unfold escapeByte; split_ifs <;> simp
            simp only [List.length_append] at hk
            omega
          rw [List.append_assoc, unquoteAux_escapeByte k b _ hb, ih s rest k hv1 hlen]
          rfl
      · have hb1 : 0x80 ≤ b := by omega
        have hsz : (DecodeRune (b :: s)).2 ≠ 1 := by
          intro h1
          simp [validUTF8Aux, h1, hb1] at hv
        obtain ⟨tl, suf, hs, hlen, henc, hdec⟩ := DecodeRune_multibyte b s hb1 hsz
        subst hs
        have hdrop : (b :: (tl ++ suf)).drop (DecodeRune (b :: (tl ++ suf))).2 = suf := by
          rw [hlen]; simp
        have htake : (b :: (tl ++ suf)).take (DecodeRune (b :: (tl ++ suf))).2 = b :: tl := by
          rw [hlen]; simp
        have hv1 : validUTF8Aux n suf = true := by
          have hv2 := hv
          simp only [validUTF8Aux, hdrop] at hv2
          simpa [hsz] using hv2
        by_cases hsep : (DecodeRune (b :: (tl ++ suf))).1 = 0x2028
            ∨ (DecodeRune (b :: (tl ++ suf))).1 = 0x2029
        · have henc1 : appendStringAux (n + 1) (b :: (tl ++ suf))
              = [0x5C, 0x75, 0x32, 0x30, 0x32,
                  hexDigit ((DecodeRune (b :: (tl ++ suf))).1 % 16)] ++ appendStringAux n suf := by
            simp only [appendStringAux, hdrop]
            rw [if_neg hb, if_neg (by intro h; exact hsz h.2), if_pos hsep]
          rw [henc1] at hk ⊢
          have hklen : (appendStringAux n suf).length < k := by
            simp only [List.length_append, List.length_cons, List.length_nil] at hk
            omega
          have hx : hex4 (0x32 :: 0x30 :: 0x32
                :: hexDigit ((DecodeRune (b :: (tl ++ suf))).1 % 16)
                :: (appendStringAux n suf ++ 0x22 :: rest))
              = some ((DecodeRune (b :: (tl ++ suf))).1, appendStringAux n suf ++ 0x22 :: rest) := by
            rcases hsep with h | h <;> rw [h] <;> rfl
          have hsur : IsSurrogate (DecodeRune (b :: (tl ++ suf))).1 = false := by
            rcases hsep with h | h <;> rw [h] <;> rfl
          have hstep := unquoteAux_hex k _ _ _ _ _ _ hx hsur
          simp only [List.cons_append, List.nil_append] at hstep ⊢
          rw [hstep, ih suf rest k hv1 hklen, henc]
          rfl
        · have henc1 : appendStringAux (n + 1) (b :: (tl ++ suf))
              = (b :: tl) ++ appendStringAux n suf := by
            simp only [appendStringAux, hdrop, htake]
            rw [if_neg hb, if_neg (by intro h; exact hsz h.2), if_neg hsep]
          rw [henc1] at hk ⊢
          have hklen : (appendStringAux n suf).length < k := by
            simp only [List.length_append, List.length_cons] at hk
            omega
          have hd2 := hdec (appendStringAux n suf ++ 0x22 :: rest)
          rw [List.append_assoc, List.cons_append, unquoteAux_raw k b _ hb1, hd2, henc, hlen]
          have hdrop2 : (b :: (tl ++ (appendStringAux n suf ++ 0x22 :: rest))).drop (tl.length + 1)
              = appendStringAux n suf ++ 0x22 :: rest := by simp
          rw [hdrop2, ih suf rest k hv1 hklen]
          rfl

/-- A string literal written by `appendString` for a valid UTF-8 string is
read back as that string. -/
theorem parseString_appendString (s rest : GoString) (hv : validUTF8 s = true) :
    parseString (appendString s ++ rest) = some (s, rest) := by
  unfold appendString parseString
  simp only [List.cons_append, List.append_assoc, List.singleton_append, if_true]
  exact unquoteAux_appendStringAux s.length s rest _ hv (by simp; omega)

/-! ## Theorems: the JSON object codec -/

theorem skipWS_quote (s : GoString) : skipWS (0x22 :: s) = 0x22 :: s := by
  simp [skipWS, isSpace]

theorem parseValue_appendString (s rest : GoString) (hv : validUTF8 s = true) :
    parseValue (appendString s ++ rest) = some (s, rest) := by
  have h := parseString_appendString s rest hv
  unfold parseValue
  rw [if_neg, h]
  unfold appendString
  cases hx : appendStringAux s.length s ++ [0x22] ++ rest with
  | nil => simp
  | cons a t =>
    cases t with
    | nil => simp
    | cons b t =>
      cases t with
      | nil => simp
      | cons c t => simp

theorem parseMembers_step (k : Nat) (e : GoString × GoString) (X : GoString)
    (h1 : validUTF8 e.1 = true) (h2 : validUTF8 e.2 = true) :
    parseMembers (k + 1) (encodeMember e ++ X)
      = match skipWS X with
        | [] => none
        | d :: s4 =>
          if d = 0x2C then (parseMembers k (skipWS s4)).map (fun r => (e :: r.1, r.2))
          else if d = 0x7D then some ([e], s4)
          else none := by
  obtain ⟨a, b⟩ := e
  unfold encodeMember
  simp only [List.append_assoc, List.cons_append]
  rw [parseMembers, parseString_appendString a _ h1]
  simp only
  have hc : skipWS (0x3A :: (appendString b ++ X)) = 0x3A :: (appendString b ++ X) := by
    simp [skipWS, isSpace]
  rw [hc]
  simp only [if_true]
  have hq : skipWS (appendString b ++ X) = appendString b ++ X := by
    unfold appendString
    exact skipWS_quote _
  rw [hq, parseValue_appendString b X h2]

theorem encodeMembers_cons_cons (e e1 : GoString × GoString) (es : GoMap) :
    encodeMembers (e :: e1 :: es) = encodeMember e ++ 0x2C :: encodeMembers (e1 :: es) := rfl

theorem encodeMembers_head (e : GoString × GoString) (es : GoMap) :
    ∃ t, encodeMembers (e :: es) = 0x22 :: t := by
  cases es with
  | nil => exact ⟨_, rfl⟩
  | cons e1 es => exact ⟨_, rfl⟩

/-- The members written by `encodeMembers` are read back in the same order. -/
theorem parseMembers_encodeMembers (es : GoMap) :
    ∀ (e : GoString × GoString) (tail : GoString) (k : Nat),
      (∀ x ∈ e :: es, validUTF8 x.1 = true ∧ validUTF8 x.2 = true) → es.length < k →
      parseMembers k (encodeMembers (e :: es) ++ 0x7D :: tail) = some (e :: es, tail) := by
  induction es with
  | nil =>
    intro e tail k hv hk
    obtain ⟨k, rfl⟩ : ∃ j, k = j + 1 := ⟨k - 1, by omega⟩
    have he := hv e (List.mem_cons_self _ _)
    show parseMembers (k + 1) (encodeMember e ++ 0x7D :: tail) = _
    rw [parseMembers_step k e _ he.1 he.2]
    simp [skipWS, isSpace]
  | cons e1 es ih =>
    intro e tail k hv hk
    obtain ⟨k, rfl⟩ : ∃ j, k = j + 1 := ⟨k - 1, by omega⟩
    have he := hv e (List.mem_cons_self _ _)
    rw [encodeMembers_cons_cons, List.append_assoc, parseMembers_step k e _ he.1 he.2]
    obtain ⟨t, ht⟩ := encodeMembers_head e1 es
    have hsk : skipWS (0x2C :: encodeMembers (e1 :: es) ++ 0x7D :: tail)
        = 0x2C :: (encodeMembers (e1 :: es) ++ 0x7D :: tail) := by
      simp [skipWS, isSpace]
    rw [hsk]
    simp only [if_true]
    have hsk2 : skipWS (encodeMembers (e1 :: es) ++ 0x7D :: tail)
        = encodeMembers (e1 :: es) ++ 0x7D :: tail := by
      rw [ht]; exact skipWS_quote _
    rw [hsk2, ih e1 tail k (fun x hx => hv x (List.mem_cons_of_mem _ hx))
      (by simp only [List.length_cons] at hk; omega)]
    rfl

theorem length_le_encodeMembers (es : GoMap) : es.length ≤ (encodeMembers es).length := by
  induction es with
  | nil => simp
  | cons e es ih =>
    cases es with
    | nil => simp [encodeMembers, encodeMember, appendString]
    | cons e1 es =>
      rw [encodeMembers_cons_cons]
      simp only [List.length_append, List.length_cons] at ih ⊢
      omega

/-- The object written by `json.Marshal` for entries of valid UTF-8 strings is
read back as those entries. -/
theorem parseDoc_encode (es : GoMap)
    (hv : ∀ x ∈ es, validUTF8 x.1 = true ∧ validUTF8 x.2 = true) :
    parseDoc (0x7B :: (encodeMembers es ++ [0x7D])) = some (Doc.object es) := by
  cases es with
  | nil => rfl
  | cons e es =>
    obtain ⟨t, ht⟩ := encodeMembers_head e es
    have h0 : skipWS (0x7B :: (encodeMembers (e :: es) ++ [0x7D]))
        = 0x7B :: (encodeMembers (e :: es) ++ [0x7D]) := by
      simp [skipWS, isSpace]
    have h1 : skipWS (encodeMembers (e :: es) ++ [0x7D]) = 0x22 :: (t ++ [0x7D]) := by
      rw [ht]; exact skipWS_quote _
    have hlen := length_le_encodeMembers (e :: es)
    have h2 := parseMembers_encodeMembers es e []
      ((encodeMembers (e :: es) ++ [0x7D]).length + 1) hv
      (by simp only [List.length_append, List.length_cons, List.length_nil] at hlen ⊢; omega)
    unfold parseDoc
    rw [h0]
    simp only [if_true]
    rw [h1]
    simp only
    rw [if_neg (by decide)]
    rw [ht] at h2 ⊢
    simp only [List.cons_append] at h2 ⊢
    rw [h2]
    simp [skipWS]

/-! ## Theorems: maps -/

theorem lookup_cons_eq (k a b : GoString) (es : GoMap) :
    List.lookup k ((a, b) :: es) = if k = a then some b else List.lookup k es := by
  by_cases h : k = a
  · subst h; simp [List.lookup]
  · have : (k == a) = false := by simpa using h
    simp [List.lookup, this, h]

theorem lookup_filter_ne (m : GoMap) (k k1 : GoString) (h : k1 ≠ k) :
    List.lookup k1 (m.filter (fun e => e.1 ≠ k)) = List.lookup k1 m := by
  induction m with
  | nil => rfl
  | cons e m ih =>
    obtain ⟨a, b⟩ := e
    rw [List.filter_cons]
    by_cases hak : a = k
    · have hd : decide ((a, b).1 ≠ k) = false := by simp [hak]
      rw [hd]
      simp only [Bool.false_eq_true, if_false]
      rw [ih, lookup_cons_eq, if_neg (by rw [hak]; exact h)]
    · have hd : decide ((a, b).1 ≠ k) = true := by simp [hak]
      rw [hd]
      simp only [if_true]
      rw [lookup_cons_eq, lookup_cons_eq, ih]

/-- Reading a map after `m[k] = v`. -/
theorem lookup_set (m : GoMap) (k v k1 : GoString) :
    List.lookup k1 (GoMap.set m k v) = if k1 = k then some v else List.lookup k1 m := by
  unfold GoMap.set
  rw [lookup_cons_eq]
  by_cases h : k1 = k
  · simp [h]
  · rw [if_neg h, if_neg h, lookup_filter_ne m k k1 h]

/-- Storing the members of an object into a map `d`: a key of the object
reads the object's value, any other key reads what `d` held. -/
theorem lookup_foldl_set (es : GoMap) :
    ∀ (d : GoMap) (k : GoString),
      List.lookup k (es.foldl (fun m e => GoMap.set m e.1 e.2) d)
        = match List.lookup k (objectMap es) with
          | some v => some v
          | none => List.lookup k d := by
  induction es with
  | nil => intro d k; rfl
  | cons e es ih =>
    intro d k
    unfold objectMap
    simp only [List.foldl_cons]
    rw [ih (GoMap.set d e.1 e.2) k, ih (GoMap.set [] e.1 e.2) k]
    cases List.lookup k (objectMap es) with
    | some v => rfl
    | none =>
      simp only [lookup_set]
      by_cases h : k = e.1
      · simp [h]
      · simp [h, List.lookup]

theorem lookup_eq_none_of_not_mem (es : GoMap) (k : GoString) (h : k ∉ es.map Prod.fst) :
    List.lookup k es = none := by
  induction es with
  | nil => rfl
  | cons e es ih =>
    obtain ⟨a, b⟩ := e
    simp only [List.map_cons, List.mem_cons, not_or] at h
    rw [lookup_cons_eq, if_neg h.1, ih h.2]

/-- With unique keys the mapping of an object reads as its list of members. -/
theorem lookup_objectMap (es : GoMap) (hn : (es.map Prod.fst).Nodup) (k : GoString) :
    List.lookup k (objectMap es) = List.lookup k es := by
  induction es with
  | nil => rfl
  | cons e es ih =>
    obtain ⟨a, b⟩ := e
    simp only [List.map_cons, List.nodup_cons] at hn
    unfold objectMap
    simp only [List.foldl_cons]
    rw [lookup_foldl_set es _ k, ih hn.2, lookup_cons_eq, lookup_set]
    by_cases h : k = a
    · subst h
      rw [lookup_eq_none_of_not_mem es k hn.1]
      simp
    · simp only [if_neg h]
      cases List.lookup k es <;> rfl

theorem perm_insertByKey (e : GoString × GoString) (xs : GoMap) :
    (insertByKey e xs).Perm (e :: xs) := by
  induction xs with
  | nil => exact List.Perm.refl _
  | cons x xs ih =>
    unfold insertByKey
    split_ifs
    · exact List.Perm.refl _
    · exact (List.Perm.cons x ih).trans (List.Perm.swap e x xs)

theorem perm_sortByKey (m : GoMap) : (sortByKey m).Perm m := by
  induction m with
  | nil => exact List.Perm.refl _
  | cons e es ih => exact (perm_insertByKey e (sortByKey es)).trans (List.Perm.cons e ih)

theorem lookup_insertByKey (e : GoString × GoString) (xs : GoMap) (k : GoString)
    (h : e.1 ∉ xs.map Prod.fst) :
    List.lookup k (insertByKey e xs) = List.lookup k (e :: xs) := by
  induction xs with
  | nil => rfl
  | cons x xs ih =>
    obtain ⟨a, b⟩ := e
    obtain ⟨c, d⟩ := x
    simp only [List.map_cons, List.mem_cons, not_or] at h
    unfold insertByKey
    split_ifs
    · rfl
    · rw [lookup_cons_eq, ih h.2, lookup_cons_eq, lookup_cons_eq, lookup_cons_eq]
      by_cases h1 : k = c
      · subst h1
        have : k ≠ a := fun h2 => h.1 h2.symm
        simp [this]
      · simp [h1]

/-- Sorting entries with unique keys does not change what a key reads. -/
theorem lookup_sortByKey (m : GoMap) (hn : (m.map Prod.fst).Nodup) (k : GoString) :
    List.lookup k (sortByKey m) = List.lookup k m := by
  induction m with
  | nil => rfl
  | cons e es ih =>
    simp only [List.map_cons, List.nodup_cons] at hn
    have hnot : e.1 ∉ (sortByKey es).map Prod.fst := by
      intro hmem
      exact hn.1 (((perm_sortByKey es).map Prod.fst).mem_iff.mp hmem)
    show List.lookup k (insertByKey e (sortByKey es)) = _
    rw [lookup_insertByKey e _ k hnot]
    obtain ⟨a, b⟩ := e
    rw [lookup_cons_eq, lookup_cons_eq, ih hn.2]

/-! ## Theorems: the directory store -/

theorem jsonUnmarshal_object (raw : GoString) (es : GoMap) (cur : Option GoMap)
    (h : parseDoc raw = some (Doc.object es)) :
    jsonUnmarshal raw cur
      = Except.ok (some (es.foldl (fun m e => GoMap.set m e.1 e.2) (cur.getD []))) := by
  simp [jsonUnmarshal, h, storeDoc]

/-- C7, amended: for a directory `m` with unique keys whose keys and values
are valid UTF-8, and a path `p` that can be written, `saveNumbers(p)` followed
by `loadNumbers(p)` from the nil directory succeeds and leaves a directory
with the same value as `m` under every key. -/
theorem saveNumbers_loadNumbers_roundtrip (m : GoMap) (p : GoString) (fs : FS)
    (hkeys : (m.map Prod.fst).Nodup)
    (hutf : ∀ e ∈ m, validUTF8 e.1 = true ∧ validUTF8 e.2 = true)
    (hw : fs.writeErr p = none) :
    ∃ st1 st2, saveNumbers p { numbers := some m, fs := fs } = Except.ok st1 ∧
      loadNumbers p { numbers := none, fs := st1.fs } = Except.ok st2 ∧
      ∀ k, mapGet st2.numbers k = mapGet (some m) k := by
  have hparse : parseDoc (jsonMarshal (some m)) = some (Doc.object (sortByKey m)) :=
    parseDoc_encode (sortByKey m) (fun x hx => hutf x ((perm_sortByKey m).mem_iff.mp hx))
  have hnd : ((sortByKey m).map Prod.fst).Nodup :=
    ((perm_sortByKey m).map Prod.fst).nodup_iff.mpr hkeys
  refine ⟨{ numbers := some m,
            fs := { fs with files := fun q => if q = p then some (jsonMarshal (some m))
                                              else fs.files q } },
          { numbers := some (objectMap (sortByKey m)),
            fs := { fs with files := fun q => if q = p then some (jsonMarshal (some m))
                                              else fs.files q } }, ?_, ?_, ?_⟩
  · simp [saveNumbers, WriteFile, hw]
  · simp [loadNumbers, ReadFile, jsonUnmarshal_object _ _ _ hparse, objectMap]
  · intro k
    show List.lookup k (objectMap (sortByKey m)) = List.lookup k m
    rw [lookup_objectMap _ hnd, lookup_sortByKey m hkeys]

/-- C7, amended, at the directory `+15551230001 -> Alice`, `+15551230002 ->
Zoë` and the path `numbers.json`. -/
theorem saveNumbers_loadNumbers_roundtrip_witness :
    ∃ st1 st2, saveNumbers (ascii "numbers.json") { numbers := some dirTwo, fs := fsEmpty }
        = Except.ok st1 ∧
      loadNumbers (ascii "numbers.json") { numbers := none, fs := st1.fs } = Except.ok st2 ∧
      ∀ k, mapGet st2.numbers k = mapGet (some dirTwo) k :=
  saveNumbers_loadNumbers_roundtrip dirTwo (ascii "numbers.json") fsEmpty
    (by decide) (by decide) rfl

/-- C7 as stated fails at the directory whose one key is the byte `0xFF`:
the key is not valid UTF-8, `json.Marshal` writes it as the escape of U+FFFD,
and the directory loaded back holds the key `EF BF BD` and not the key `FF`. -/
theorem saveNumbers_loadNumbers_invalid_utf8 :
    ∃ st1 st2, saveNumbers (ascii "numbers.json")
        { numbers := some [([0xFF], ascii "Alice")], fs := fsEmpty } = Except.ok st1 ∧
      loadNumbers (ascii "numbers.json") { numbers := none, fs := st1.fs } = Except.ok st2 ∧
      mapGet st2.numbers [0xFF] = none ∧
      mapGet (some [([0xFF], ascii "Alice")]) [0xFF] = some (ascii "Alice") ∧
      mapGet st2.numbers [0xEF, 0xBF, 0xBD] = some (ascii "Alice") :=
  ⟨_, _, rfl, rfl, by decide, by decide, by decide⟩

/-- C8, amended: a successful `loadNumbers` of a file holding a JSON object
stores the members of the object into the directory that is already in
memory: every key of the object gets the object's value, every other key
keeps the value it had, and from a nil or empty directory the result is the
mapping of the object. -/
theorem loadNumbers_stores_into_existing (d0 : Option GoMap) (fs : FS) (p raw : GoString)
    (es : GoMap) (hfile : fs.files p = some raw)
    (hdoc : parseDoc raw = some (Doc.object es)) :
    ∃ st, loadNumbers p { numbers := d0, fs := fs } = Except.ok st ∧
      (∀ k v, List.lookup k (objectMap es) = some v → mapGet st.numbers k = some v) ∧
      (∀ k, List.lookup k (objectMap es) = none → mapGet st.numbers k = mapGet d0 k) ∧
      (d0.getD [] = [] → ∀ k, mapGet st.numbers k = List.lookup k (objectMap es)) := by
  have hget : ∀ k, List.lookup k (d0.getD []) = mapGet d0 k := by
    intro k
    cases d0 <;> rfl
  refine ⟨{ numbers := some (es.foldl (fun m e => GoMap.set m e.1 e.2) (d0.getD [])),
            fs := fs }, ?_, ?_, ?_, ?_⟩
  · simp [loadNumbers, ReadFile, hfile, jsonUnmarshal_object _ _ _ hdoc]
  · intro k v hk
    show List.lookup k (es.foldl (fun m e => GoMap.set m e.1 e.2) (d0.getD [])) = some v
    rw [lookup_foldl_set, hk]
  · intro k hk
    show List.lookup k (es.foldl (fun m e => GoMap.set m e.1 e.2) (d0.getD [])) = mapGet d0 k
    rw [lookup_foldl_set, hk, hget]
  · intro h0 k
    show List.lookup k (es.foldl (fun m e => GoMap.set m e.1 e.2) (d0.getD [])) = _
    rw [h0]
    rfl

/-- C8, amended, at the directory `+19998887777 -> Bob` and the file
`people.json` holding the object `+15551230001 -> Alice`. -/
theorem loadNumbers_stores_into_existing_witness :
    ∃ st, loadNumbers (ascii "people.json") { numbers := dirBob, fs := fsAliceFile }
        = Except.ok st ∧
      (∀ k v, List.lookup k (objectMap [(ascii "+15551230001", ascii "Alice")]) = some v →
        mapGet st.numbers k = some v) ∧
      (∀ k, List.lookup k (objectMap [(ascii "+15551230001", ascii "Alice")]) = none →
        mapGet st.numbers k = mapGet dirBob k) ∧
      (dirBob.getD [] = [] →
        ∀ k, mapGet st.numbers k
          = List.lookup k (objectMap [(ascii "+15551230001", ascii "Alice")])) :=
  loadNumbers_stores_into_existing dirBob fsAliceFile (ascii "people.json")
    (ascii "\x7b\"+15551230001\":\"Alice\"\x7d") [(ascii "+15551230001", ascii "Alice")]
    rfl (by decide)

/-- C8 as stated fails at the directory `+19998887777 -> Bob` and the file
`people.json` holding the object `+15551230001 -> Alice`: the load succeeds
and the key `+19998887777`, which the object does not hold, is still in the
directory. -/
theorem loadNumbers_keeps_absent_key :
    ∃ st, loadNumbers (ascii "people.json") { numbers := dirBob, fs := fsAliceFile }
        = Except.ok st ∧
      parseDoc (ascii "\x7b\"+15551230001\":\"Alice\"\x7d")
        = some (Doc.object [(ascii "+15551230001", ascii "Alice")]) ∧
      List.lookup (ascii "+19998887777") (objectMap [(ascii "+15551230001", ascii "Alice")])
        = none ∧
      mapGet st.numbers (ascii "+19998887777") = some (ascii "Bob") :=
  ⟨_, rfl, by decide, by decide, by decide⟩

end Bridge
